import Mathlib

set_option maxRecDepth 4000

/-!
Verification of the yadisk-client convenience layer: the upload-or-replace
decision procedure, directory auto-creation, streamed digest computation and
existence-checked metadata lookup, over a shallow embedding of the source.
Python strings are embedded as lists of characters; the external remote store
(the yadisk API client) is modelled from the specification's RemoteStore
capability as a finite map from normalized paths to metadata records, and
every upload and mkdir call the client issues is recorded in a log so that
claims about the number of remote calls can be stated.
-/

/-- Python strings are modelled as lists of characters. -/
abbrev PStr := List Char

/-- Embedding of Python str.split(sep) for a one-character separator. -/
def splitChar (c : Char) : PStr → List PStr
  | [] => [[]]
  | x :: xs =>
    if x = c then [] :: splitChar c xs
    else
      match splitChar c xs with
      | [] => [[x]]
      | h :: t => (x :: h) :: t

/-- Joins path components with slash separators (left inverse of splitChar '/'). -/
def joinSlash : List PStr → PStr
  | [] => []
  | [x] => x
  | x :: y :: t => x ++ '/' :: joinSlash (y :: t)

/-- Drops trailing slash characters: the remote store identifies a path given
with a trailing separator with the same path given without one. -/
def normalizeP (p : PStr) : PStr := (p.reverse.dropWhile (fun c => c == '/')).reverse

/-- The parent of a normalized path: everything before the final slash,
and [] (the root) for a top-level name. -/
def parent (p : PStr) : PStr := ((p.reverse.dropWhile (fun c => !(c == '/'))).drop 1).reverse

/-- Embedding of os.path.basename for POSIX separators: the part of the path
after the last slash. -/
def basename (p : PStr) : PStr := (p.reverse.takeWhile (fun c => !(c == '/'))).reverse

inductive EntryType
  | file
  | dir
deriving DecidableEq, Repr

/-- The metadata record the remote store returns for a path, restricted to the
fields the client requests (type and md5); directories carry no md5. -/
structure Resource where
  type : EntryType
  md5 : Option String
deriving DecidableEq, Repr

/-- The errors of the embedding: PathNotFoundError from the remote store,
ConflictError (covering the code's ValueError on a file/dir type clash and the
store's 409 conflicts), and Python's TypeError from subscripting None. -/
inductive Err
  | pathNotFound
  | conflict (msg : PStr)
  | typeError
deriving DecidableEq, Repr

/-- Modelled from the spec: the remote store state, a finite map from
normalized remote paths to metadata records. -/
abbrev Store := List (PStr × Resource)

def Store.findKey : Store → PStr → Option Resource
  | [], _ => none
  | (k, m) :: s, p => if p = k then some m else Store.findKey s p

def Store.find (s : Store) (p : PStr) : Option Resource :=
  Store.findKey s (normalizeP p)

def Store.set (s : Store) (p : PStr) (m : Resource) : Store :=
  (normalizeP p, m) :: s

/-- Modelled from the spec: RemoteStore.exists(path). -/
def Store.existsP (s : Store) (p : PStr) : Bool := (Store.find s p).isSome

def Store.isDirAt (s : Store) (p : PStr) : Bool :=
  match Store.findKey s p with
  | some m => m.type == EntryType.dir
  | none => false

/-- Whether the parent of a path is the root or an existing directory. -/
def Store.parentOk (s : Store) (p : PStr) : Bool :=
  (parent (normalizeP p)).isEmpty || Store.isDirAt s (parent (normalizeP p))

/-- Modelled from the spec: RemoteStore.mkdir(path) fails (ConflictError) if
the parent is missing or not a directory, or if the path already exists;
otherwise it records a directory at the path. -/
def Store.mkdir (s : Store) (p : PStr) : Except Err Store :=
  if Store.parentOk s p then
    match Store.find s p with
    | some _ => Except.error (Err.conflict ("mkdir: path already exists".toList))
    | none => Except.ok (Store.set s p { type := EntryType.dir, md5 := none })
  else Except.error (Err.conflict ("mkdir: parent is missing or not a directory".toList))

/-- Modelled from the spec: RemoteStore.upload(localFile, remotePath, overwrite).
It fails (ConflictError) if the parent is not the root or an existing directory,
if the target is a directory, or if the target exists and overwrite is false;
otherwise it stores a file whose reported digest is srv applied to the content
(the server-reported digest of the stored content may differ from any locally
computed digest). -/
def Store.upload (srv : List Nat → String) (s : Store) (content : List Nat)
    (p : PStr) (overwrite : Bool) : Except Err Store :=
  if Store.parentOk s p then
    match Store.find s p with
    | some m =>
      if m.type == EntryType.dir then
        Except.error (Err.conflict ("upload: path is a directory".toList))
      else if overwrite then
        Except.ok (Store.set s p { type := EntryType.file, md5 := some (srv content) })
      else Except.error (Err.conflict ("upload: path already exists".toList))
    | none => Except.ok (Store.set s p { type := EntryType.file, md5 := some (srv content) })
  else Except.error (Err.conflict ("upload: parent is missing or not a directory".toList))

/-- Modelled from the spec: RemoteStore.getMetadata fails with a not-found
error when the path is absent. -/
def Store.get_meta (s : Store) (p : PStr) : Except Err Resource :=
  match Store.find s p with
  | some m => Except.ok m
  | none => Except.error Err.pathNotFound

/-- A local file: its path and its byte content. -/
structure LocalFile where
  path : PStr
  content : List Nat
deriving DecidableEq, Repr

/-- The remote-store state together with the log of upload and mkdir calls the
client has issued, in order. -/
structure World where
  store : Store
  uploadLog : List (PStr × PStr)
  mkdirLog : List PStr
deriving DecidableEq, Repr

/-- A mkdir call: recorded in the log whether or not the store accepts it. -/
def W.mkdir (w : World) (p : PStr) : World × Except Err Unit :=
  let w' : World := { w with mkdirLog := w.mkdirLog ++ [p] }
  match Store.mkdir w.store p with
  | Except.ok s' => ({ w' with store := s' }, Except.ok ())
  | Except.error e => (w', Except.error e)

/-- An upload call: recorded in the log whether or not the store accepts it. -/
def W.upload (srv : List Nat → String) (w : World) (local_file : LocalFile)
    (p : PStr) (overwrite : Bool) : World × Except Err Unit :=
  let w' : World := { w with uploadLog := w.uploadLog ++ [(local_file.path, p)] }
  match Store.upload srv w.store local_file.content p overwrite with
  | Except.ok s' => ({ w' with store := s' }, Except.ok ())
  | Except.error e => (w', Except.error e)

/-- YaDisk.get_meta_or_none: try get_meta, converting PathNotFoundError to an
absent result; any other error propagates unchanged. -/
def get_meta_or_none (getMeta : PStr → Except Err Resource) (p : PStr) :
    Except Err (Option Resource) :=
  match getMeta p with
  | Except.ok m => Except.ok (some m)
  | Except.error Err.pathNotFound => Except.ok none
  | Except.error e => Except.error e

def W.meta_or_none (w : World) (p : PStr) : Except Err (Option Resource) :=
  get_meta_or_none (Store.get_meta w.store) p

/-- The loop body of YaDisk.create_folders: path_collector accumulates
segment + os.sep; a missing cumulative prefix is created with mkdir. -/
def create_folders_aux (w : World) (collector : PStr) : List PStr → World × Except Err Unit
  | [] => (w, Except.ok ())
  | seg :: rest =>
    if Store.existsP w.store (collector ++ seg ++ ['/']) then
      create_folders_aux w (collector ++ seg ++ ['/']) rest
    else
      match W.mkdir w (collector ++ seg ++ ['/']) with
      | (w', Except.ok _) => create_folders_aux w' (collector ++ seg ++ ['/']) rest
      | (w', Except.error e) => (w', Except.error e)

/-- YaDisk.create_folders: splits remote_dir on the separator and ensures each
cumulative prefix exists, creating it when absent. -/
def create_folders (w : World) (remote_dir : PStr) : World × Except Err Unit :=
  create_folders_aux w [] (splitChar '/' remote_dir)

/-- The chunks f.read(buf_size) yields until it returns b"": with buf_size 0
the first read already returns b"" and the loop body never runs. -/
def chunksOf : Nat → List Nat → List (List Nat)
  | 0, _ => []
  | _ + 1, [] => []
  | n + 1, a :: l => List.take (n + 1) (a :: l) :: chunksOf (n + 1) (List.drop (n + 1) (a :: l))
  termination_by _ l => l.length
  decreasing_by simp [List.length_drop]; omega

/-- calculate_md5: streams the file through an md5 object in buf_size-sized
chunks and returns the hex digest. The md5 object's state is modelled, per the
incremental-hash contract that feeding chunks one by one equals feeding their
concatenation, as the bytes fed so far; hexdigest is an abstract function of
those bytes. -/
def calculate_md5 (hexdigest : List Nat → String) (content : List Nat)
    (buf_size : Nat) : String :=
  hexdigest (List.foldl (fun acc chunk => acc ++ chunk) [] (chunksOf buf_size content))

/-- Python meta['md5']: a TypeError when meta is None, else the md5 field
(None for a directory resource). -/
def subscriptMd5 : Option Resource → Except Err (Option String)
  | some m => Except.ok m.md5
  | none => Except.error Err.typeError

/-- Python `cur_meta and cur_meta['type'] == 'dir'`. -/
def isDirMeta : Option Resource → Bool
  | some m => m.type == EntryType.dir
  | none => false

inductive ConflictResolution
  | REPLACE_IF_DIFFERENT
  | ALWAYS_REPLACE
  | SKIP
deriving DecidableEq, Repr

/-- The message of the ValueError the code raises when the remote path is a
directory. -/
def dirConflictMsg (remote_path : PStr) : PStr :=
  ("Cannot save file because directory with the same name already exists: ").toList
    ++ remote_path

/-- file_name = os.path.basename(local_file).split('/')[-1]. -/
def fileNameOf (local_file : PStr) : PStr :=
  (splitChar '/' (basename local_file)).getLastD []

/-- remote_path = f"{remote_dir}/{file_name}". -/
def remotePathOf (local_file : PStr) (remote_dir : PStr) : PStr :=
  remote_dir ++ '/' :: fileNameOf local_file

/-- YaDisk.upload_or_replace: ensure the directory chain, look up the target's
metadata, fail if it is a directory, then branch on the conflict-resolution
policy; returns (remote_path, md5) where md5 mirrors the Python variable that
starts as None. -/
def upload_or_replace (srv : List Nat → String) (hexdigest : List Nat → String)
    (w : World) (local_file : LocalFile) (remote_dir : PStr)
    (conflict_resolution : ConflictResolution) :
    World × Except Err (PStr × Option String) :=
  match create_folders w remote_dir with
  | (w1, Except.error e) => (w1, Except.error e)
  | (w1, Except.ok _) =>
    match W.meta_or_none w1 (remotePathOf local_file.path remote_dir) with
    | Except.error e => (w1, Except.error e)
    | Except.ok cur_meta =>
      if isDirMeta cur_meta then
        (w1, Except.error (Err.conflict (dirConflictMsg (remotePathOf local_file.path remote_dir))))
      else if cur_meta.isNone || conflict_resolution == ConflictResolution.ALWAYS_REPLACE then
        match W.upload srv w1 local_file (remotePathOf local_file.path remote_dir) true with
        | (w2, Except.error e) => (w2, Except.error e)
        | (w2, Except.ok _) =>
          match W.meta_or_none w2 (remotePathOf local_file.path remote_dir) with
          | Except.error e => (w2, Except.error e)
          | Except.ok new_meta =>
            match subscriptMd5 new_meta with
            | Except.error e => (w2, Except.error e)
            | Except.ok md5 => (w2, Except.ok (remotePathOf local_file.path remote_dir, md5))
      else if conflict_resolution == ConflictResolution.REPLACE_IF_DIFFERENT then
        let md5 := calculate_md5 hexdigest local_file.content 2048
        match subscriptMd5 cur_meta with
        | Except.error e => (w1, Except.error e)
        | Except.ok cur_md5 =>
          if cur_md5 ≠ some md5 then
            match W.upload srv w1 local_file (remotePathOf local_file.path remote_dir) true with
            | (w2, Except.error e) => (w2, Except.error e)
            | (w2, Except.ok _) =>
              match W.meta_or_none w2 (remotePathOf local_file.path remote_dir) with
              | Except.error e => (w2, Except.error e)
              | Except.ok new_meta =>
                match subscriptMd5 new_meta with
                | Except.error e => (w2, Except.error e)
                | Except.ok m => (w2, Except.ok (remotePathOf local_file.path remote_dir, m))
          else (w1, Except.ok (remotePathOf local_file.path remote_dir, some md5))
      else if conflict_resolution == ConflictResolution.SKIP then
        match subscriptMd5 cur_meta with
        | Except.error e => (w1, Except.error e)
        | Except.ok m => (w1, Except.ok (remotePathOf local_file.path remote_dir, m))
      else (w1, Except.ok (remotePathOf local_file.path remote_dir, none))

/-- The normalized cumulative prefix obtained by descending from normalized
base q into segment seg. -/
def mkpc (q seg : PStr) : PStr := if q = [] then seg else q ++ '/' :: seg

/-- The normalized cumulative prefixes visited when walking the given segments
down from normalized base q. -/
def chainFrom (q : PStr) : List PStr → List PStr
  | [] => []
  | seg :: rest => mkpc q seg :: chainFrom (mkpc q seg) rest

/-- The last normalized cumulative prefix of the walk. -/
def finalQ (q : PStr) : List PStr → PStr
  | [] => q
  | seg :: rest => finalQ (mkpc q seg) rest

/-- The raw path_collector values create_folders passes to exists and mkdir. -/
def cumulCollectors (collector : PStr) : List PStr → List PStr
  | [] => []
  | seg :: rest =>
    (collector ++ seg ++ ['/']) :: cumulCollectors (collector ++ seg ++ ['/']) rest

/-! ### Basic lemmas about the path operations -/

theorem dropWhile_append_all {p : Char → Bool} {l1 l2 : List Char}
    (h : ∀ a ∈ l1, p a = true) : (l1 ++ l2).dropWhile p = l2.dropWhile p := by
  induction l1 with
  | nil => rfl
  | cons a t ih =>
    rw [List.cons_append, List.dropWhile_cons_of_pos (h a (by simp))]
    exact ih fun x hx => h x (by simp [hx])

theorem dropWhile_all_nil {p : Char → Bool} {l : List Char}
    (h : ∀ a ∈ l, p a = true) : l.dropWhile p = [] :=
  List.dropWhile_eq_nil_iff.mpr h

theorem append_seg_reverse (q seg : PStr) :
    (q ++ '/' :: seg).reverse = seg.reverse ++ '/' :: q.reverse := by
  simp

theorem reverse_seg_head {seg : PStr} (hne : seg ≠ []) (hns : ¬ '/' ∈ seg) :
    ∃ c r, seg.reverse = c :: r ∧ ¬ c = '/' := by
  cases h : seg.reverse with
  | nil =>
    exfalso
    exact hne (by simpa using congrArg List.reverse h)
  | cons c r =>
    refine ⟨c, r, rfl, fun hc => hns ?_⟩
    subst hc
    have : '/' ∈ seg.reverse := by rw [h]; exact List.mem_cons_self _ _
    simpa using this

theorem normalizeP_eq_self {l : PStr} {c : Char} {r : List Char}
    (h : l.reverse = c :: r) (hc : ¬ c = '/') : normalizeP l = l := by
  unfold normalizeP
  rw [h, List.dropWhile_cons_of_neg (by simp [hc]), ← h, List.reverse_reverse]

theorem normalizeP_seg {seg : PStr} (hne : seg ≠ []) (hns : ¬ '/' ∈ seg) :
    normalizeP seg = seg := by
  obtain ⟨c, r, hrev, hc⟩ := reverse_seg_head hne hns
  exact normalizeP_eq_self hrev hc

theorem normalizeP_append_seg {q seg : PStr} (hne : seg ≠ []) (hns : ¬ '/' ∈ seg) :
    normalizeP (q ++ '/' :: seg) = q ++ '/' :: seg := by
  obtain ⟨c, r, hrev, hc⟩ := reverse_seg_head hne hns
  refine normalizeP_eq_self (c := c) (r := r ++ '/' :: q.reverse) ?_ hc
  rw [append_seg_reverse, hrev]
  rfl

theorem normalizeP_append_slash (p : PStr) : normalizeP (p ++ ['/']) = normalizeP p := by
  unfold normalizeP
  rw [List.reverse_append]
  rfl

theorem parent_append_seg {q seg : PStr} (hns : ¬ '/' ∈ seg) :
    parent (q ++ '/' :: seg) = q := by
  unfold parent
  rw [append_seg_reverse,
    dropWhile_append_all (fun a ha => by
      have ha' : a ∈ seg := by simpa using ha
      have hne : a ≠ '/' := fun hc => hns (hc ▸ ha')
      simp [hne]),
    List.dropWhile_cons_of_neg (by simp)]
  simp

theorem parent_seg {seg : PStr} (hns : ¬ '/' ∈ seg) : parent seg = [] := by
  unfold parent
  rw [dropWhile_all_nil (fun a ha => by
    have ha' : a ∈ seg := by simpa using ha
    have hne : a ≠ '/' := fun hc => hns (hc ▸ ha')
    simp [hne])]
  rfl

theorem mkpc_ne_nil {q seg : PStr} (hne : seg ≠ []) : mkpc q seg ≠ [] := by
  unfold mkpc
  split
  · exact hne
  · simp

theorem parent_mkpc {q seg : PStr} (hns : ¬ '/' ∈ seg) : parent (mkpc q seg) = q := by
  unfold mkpc
  split
  · rename_i hq
    rw [parent_seg hns, hq]
  · exact parent_append_seg hns

theorem normalizeP_mkpc {q seg : PStr} (hne : seg ≠ []) (hns : ¬ '/' ∈ seg) :
    normalizeP (mkpc q seg) = mkpc q seg := by
  unfold mkpc
  split
  · exact normalizeP_seg hne hns
  · exact normalizeP_append_seg hne hns

/-! ### Lemmas about splitChar and joinSlash -/

theorem splitChar_ne_nil (c : Char) (s : PStr) : splitChar c s ≠ [] := by
  induction s with
  | nil => simp [splitChar]
  | cons x xs ih =>
    unfold splitChar
    split
    · simp
    · cases h : splitChar c xs with
      | nil => simp
      | cons a t => simp

theorem splitChar_no_sep (c : Char) (s : PStr) : ∀ x ∈ splitChar c s, ¬ c ∈ x := by
  induction s with
  | nil => intro x hx; simp [splitChar] at hx; simp [hx]
  | cons a as ih =>
    intro x hx
    unfold splitChar at hx
    by_cases hac : a = c
    · rw [if_pos hac] at hx
      rcases List.mem_cons.mp hx with h | h
      · simp [h]
      · exact ih x h
    · rw [if_neg hac] at hx
      cases hsp : splitChar c as with
      | nil => exact absurd hsp (splitChar_ne_nil c as)
      | cons hd tl =>
        rw [hsp] at hx
        rcases List.mem_cons.mp hx with h | h
        · subst h
          intro hmem
          rcases List.mem_cons.mp hmem with h' | h'
          · exact hac h'.symm
          · exact ih hd (by rw [hsp]; exact List.mem_cons_self _ _) h'
        · exact ih x (by rw [hsp]; exact List.mem_cons.mpr (Or.inr h))

theorem joinSlash_splitChar (s : PStr) : joinSlash (splitChar '/' s) = s := by
  induction s with
  | nil => rfl
  | cons a as ih =>
    unfold splitChar
    by_cases hac : a = '/'
    · rw [if_pos hac]
      cases hsp : splitChar '/' as with
      | nil => exact absurd hsp (splitChar_ne_nil '/' as)
      | cons hd tl =>
        show joinSlash ([] :: hd :: tl) = a :: as
        rw [hsp] at ih
        unfold joinSlash
        rw [ih, hac]
        rfl
    · rw [if_neg hac]
      cases hsp : splitChar '/' as with
      | nil => exact absurd hsp (splitChar_ne_nil '/' as)
      | cons hd tl =>
        rw [hsp] at ih
        cases tl with
        | nil =>
          show joinSlash [a :: hd] = a :: as
          unfold joinSlash at ih ⊢
          rw [ih]
        | cons b tl' =>
          show joinSlash ((a :: hd) :: b :: tl') = a :: as
          unfold joinSlash at ih ⊢
          rw [← ih]
          rfl

theorem splitChar_of_no_sep {c : Char} {s : PStr} (h : ¬ c ∈ s) : splitChar c s = [s] := by
  induction s with
  | nil => rfl
  | cons a as ih =>
    unfold splitChar
    have hac : ¬ a = c := fun hac => h (by rw [← hac]; exact List.mem_cons_self _ _)
    rw [if_neg hac, ih (fun hc => h (List.mem_cons.mpr (Or.inr hc)))]

/-! ### Lemmas about basename and fileNameOf -/

theorem basename_no_sep (p : PStr) : ¬ '/' ∈ basename p := by
  intro h
  have h' : '/' ∈ p.reverse.takeWhile (fun c => !(c == '/')) := by
    simpa [basename] using h
  have := List.mem_takeWhile_imp h'
  simp at this

theorem fileNameOf_eq_basename (p : PStr) : fileNameOf p = basename p := by
  unfold fileNameOf
  rw [splitChar_of_no_sep (basename_no_sep p)]
  rfl

theorem fileNameOf_no_sep (p : PStr) : ¬ '/' ∈ fileNameOf p := by
  rw [fileNameOf_eq_basename]
  exact basename_no_sep p

/-! ### Lemmas about the store and the logged client operations -/

theorem find_set_self (s : Store) (p : PStr) (m : Resource) :
    Store.find (Store.set s p m) p = some m := by
  simp [Store.find, Store.set, Store.findKey]

theorem findKey_cons (k : PStr) (m : Resource) (s : Store) (p : PStr) :
    Store.findKey ((k, m) :: s) p = if p = k then some m else Store.findKey s p := rfl

theorem meta_or_none_eq (w : World) (p : PStr) :
    W.meta_or_none w p = Except.ok (Store.find w.store p) := by
  unfold W.meta_or_none get_meta_or_none Store.get_meta
  cases Store.find w.store p <;> rfl

theorem mkdir_fst_uploadLog (w : World) (p : PStr) :
    (W.mkdir w p).1.uploadLog = w.uploadLog := by
  unfold W.mkdir
  cases Store.mkdir w.store p <;> rfl

theorem mkdir_fst_mkdirLog (w : World) (p : PStr) :
    (W.mkdir w p).1.mkdirLog = w.mkdirLog ++ [p] := by
  unfold W.mkdir
  cases Store.mkdir w.store p <;> rfl

theorem upload_fst_uploadLog (srv : List Nat → String) (w : World) (lf : LocalFile)
    (p : PStr) (ow : Bool) :
    (W.upload srv w lf p ow).1.uploadLog = w.uploadLog ++ [(lf.path, p)] := by
  unfold W.upload
  cases Store.upload srv w.store lf.content p ow <;> rfl

theorem store_upload_ok {srv : List Nat → String} {s : Store} {content : List Nat}
    {p : PStr} {ow : Bool} {s' : Store}
    (h : Store.upload srv s content p ow = Except.ok s') :
    s' = Store.set s p { type := EntryType.file, md5 := some (srv content) } := by
  unfold Store.upload at h
  split at h
  · split at h
    · split at h
      · exact absurd h (by simp)
      · split at h
        · exact (Except.ok.injEq .. ▸ h).symm
        · exact absurd h (by simp)
    · exact (Except.ok.injEq .. ▸ h).symm
  · exact absurd h (by simp)

theorem store_upload_error {srv : List Nat → String} {s : Store} {content : List Nat}
    {p : PStr} {ow : Bool} {e : Err}
    (h : Store.upload srv s content p ow = Except.error e) :
    ∃ msg, e = Err.conflict msg := by
  unfold Store.upload at h
  split at h
  · split at h
    · split at h
      · exact ⟨_, ((Except.error.injEq ..).mp h).symm⟩
      · split at h
        · exact absurd h (by simp)
        · exact ⟨_, ((Except.error.injEq ..).mp h).symm⟩
    · exact absurd h (by simp)
  · exact ⟨_, ((Except.error.injEq ..).mp h).symm⟩

theorem store_mkdir_error {s : Store} {p : PStr} {e : Err}
    (h : Store.mkdir s p = Except.error e) : ∃ msg, e = Err.conflict msg := by
  unfold Store.mkdir at h
  split at h
  · split at h
    · exact ⟨_, ((Except.error.injEq ..).mp h).symm⟩
    · exact absurd h (by simp)
  · exact ⟨_, ((Except.error.injEq ..).mp h).symm⟩

theorem upload_ok_find {srv : List Nat → String} {w : World} {lf : LocalFile}
    {p : PStr} {w2 : World} {u : Unit}
    (h : W.upload srv w lf p true = (w2, Except.ok u)) :
    Store.find w2.store p = some { type := EntryType.file, md5 := some (srv lf.content) } := by
  unfold W.upload at h
  cases hs : Store.upload srv w.store lf.content p true with
  | ok s' =>
    rw [hs] at h
    have hw2 : w2.store = s' := by
      have := congrArg Prod.fst h
      simp at this
      rw [← this]
    rw [hw2, store_upload_ok hs, find_set_self]
  | error e =>
    rw [hs] at h
    simp at h

theorem upload_error_conflict {srv : List Nat → String} {w : World} {lf : LocalFile}
    {p : PStr} {ow : Bool} {w2 : World} {e : Err}
    (h : W.upload srv w lf p ow = (w2, Except.error e)) :
    ∃ msg, e = Err.conflict msg := by
  unfold W.upload at h
  cases hs : Store.upload srv w.store lf.content p ow with
  | ok s' => rw [hs] at h; simp at h
  | error e' =>
    rw [hs] at h
    have he : e = e' := by
      have := congrArg Prod.snd h
      simp at this
      rw [this]
    exact he ▸ store_upload_error hs

theorem mkdir_error_conflict {w : World} {p : PStr} {w2 : World} {e : Err}
    (h : W.mkdir w p = (w2, Except.error e)) : ∃ msg, e = Err.conflict msg := by
  unfold W.mkdir at h
  cases hs : Store.mkdir w.store p with
  | ok s' => rw [hs] at h; simp at h
  | error e' =>
    rw [hs] at h
    have he : e = e' := by
      have := congrArg Prod.snd h
      simp at this
      rw [this]
    exact he ▸ store_mkdir_error hs

theorem create_aux_uploadLog : ∀ (segs : List PStr) (w : World) (c : PStr),
    (create_folders_aux w c segs).1.uploadLog = w.uploadLog := by
  intro segs
  induction segs with
  | nil => intro w c; rfl
  | cons seg rest ih =>
    intro w c
    show (create_folders_aux w c (seg :: rest)).1.uploadLog = w.uploadLog
    unfold create_folders_aux
    split
    · exact ih w _
    · rcases hm : W.mkdir w (c ++ seg ++ ['/']) with ⟨w', r⟩
      have hlog : w'.uploadLog = w.uploadLog := by
        have := mkdir_fst_uploadLog w (c ++ seg ++ ['/'])
        rw [hm] at this
        exact this
      cases r with
      | ok u => rw [← hlog]; exact ih w' _
      | error e => exact hlog

theorem create_folders_uploadLog (w : World) (d : PStr) :
    (create_folders w d).1.uploadLog = w.uploadLog :=
  create_aux_uploadLog (splitChar '/' d) w []

theorem create_aux_error_conflict : ∀ (segs : List PStr) (w : World) (c : PStr)
    {w' : World} {e : Err},
    create_folders_aux w c segs = (w', Except.error e) → ∃ msg, e = Err.conflict msg := by
  intro segs
  induction segs with
  | nil => intro w c w' e h; simp [create_folders_aux] at h
  | cons seg rest ih =>
    intro w c w' e h
    unfold create_folders_aux at h
    split at h
    · exact ih w _ h
    · rcases hm : W.mkdir w (c ++ seg ++ ['/']) with ⟨w1, r⟩
      rw [hm] at h
      cases r with
      | ok u => exact ih w1 _ h
      | error e' =>
        have he : e' = e := by
          have h2 := congrArg Prod.snd h
          simpa using h2
        exact he ▸ mkdir_error_conflict hm

/-! ### C8 and its chunk lemma -/

theorem chunks_foldl (n : Nat) (l acc : List Nat) :
    List.foldl (fun a c => a ++ c) acc (chunksOf (n + 1) l) = acc ++ l := by
  match l with
  | [] => simp [chunksOf]
  | a :: l' =>
    rw [chunksOf]
    rw [List.foldl_cons]
    rw [chunks_foldl n (List.drop (n + 1) (a :: l')) (acc ++ List.take (n + 1) (a :: l'))]
    rw [List.append_assoc, List.take_append_drop]
  termination_by l.length
  decreasing_by simp [List.length_drop]; omega

theorem calculate_md5_pos (hexdigest : List Nat → String) (content : List Nat)
    {b : Nat} (hb : 0 < b) : calculate_md5 hexdigest content b = hexdigest content := by
  unfold calculate_md5
  cases b with
  | zero => exact absurd hb (by simp)
  | succ n => rw [chunks_foldl n content []]; rfl

/-- C8: For every local file content and every pair of positive buffer sizes,
calculate_md5 returns the same digest string for both buffer sizes (each equal
to the digest of the whole content fed at once), and as a function it is
deterministic: two computations on the same content give identical results. -/
theorem calculate_md5_chunk_invariant (hexdigest : List Nat → String)
    (content : List Nat) (b1 b2 : Nat) (h1 : 0 < b1) (h2 : 0 < b2) :
    calculate_md5 hexdigest content b1 = hexdigest content ∧
    calculate_md5 hexdigest content b1 = calculate_md5 hexdigest content b2 := by
  constructor
  · exact calculate_md5_pos hexdigest content h1
  · rw [calculate_md5_pos hexdigest content h1, calculate_md5_pos hexdigest content h2]

theorem calculate_md5_chunk_invariant_witness :
    calculate_md5 (fun l => toString l.length) [1, 2, 3, 4, 5] 2
        = (fun l : List Nat => toString l.length) [1, 2, 3, 4, 5] ∧
    calculate_md5 (fun l => toString l.length) [1, 2, 3, 4, 5] 2
        = calculate_md5 (fun l => toString l.length) [1, 2, 3, 4, 5] 3 :=
  calculate_md5_chunk_invariant (fun l => toString l.length) [1, 2, 3, 4, 5] 2 3
    (by decide) (by decide)

/-! ### C9 -/

/-- C9: get_meta_or_none returns an absent result exactly when the underlying
metadata call fails with PathNotFoundError, returns the metadata record
unchanged (wrapped as present) when the call succeeds, and propagates every
other error unchanged. -/
theorem get_meta_or_none_conversion (getMeta : PStr → Except Err Resource) (p : PStr) :
    (∀ m, getMeta p = Except.ok m → get_meta_or_none getMeta p = Except.ok (some m)) ∧
    (getMeta p = Except.error Err.pathNotFound → get_meta_or_none getMeta p = Except.ok none) ∧
    (∀ e, e ≠ Err.pathNotFound → getMeta p = Except.error e →
      get_meta_or_none getMeta p = Except.error e) ∧
    (get_meta_or_none getMeta p = Except.ok none → getMeta p = Except.error Err.pathNotFound) := by
  refine ⟨?_, ?_, ?_, ?_⟩
  · intro m h
    unfold get_meta_or_none
    rw [h]
  · intro h
    unfold get_meta_or_none
    rw [h]
  · intro e he h
    unfold get_meta_or_none
    rw [h]
    cases e with
    | pathNotFound => exact absurd rfl he
    | conflict msg => rfl
    | typeError => rfl
  · intro h
    unfold get_meta_or_none at h
    cases hg : getMeta p with
    | ok m => rw [hg] at h; simp at h
    | error e =>
      rw [hg] at h
      cases e with
      | pathNotFound => rfl
      | conflict msg => simp at h
      | typeError => simp at h

theorem get_meta_or_none_conversion_witness :
    get_meta_or_none (fun _ => Except.error Err.typeError) [] = Except.error Err.typeError :=
  (get_meta_or_none_conversion (fun _ => Except.error Err.typeError) []).2.2.1
    Err.typeError (by decide) rfl

/-! ### Small evaluation lemmas for the enumerations -/

@[simp] theorem file_beq_dir : (EntryType.file == EntryType.dir) = false := rfl

@[simp] theorem dir_beq_dir : (EntryType.dir == EntryType.dir) = true := rfl

@[simp] theorem rid_beq_always :
    (ConflictResolution.REPLACE_IF_DIFFERENT == ConflictResolution.ALWAYS_REPLACE) = false := rfl

@[simp] theorem rid_beq_rid :
    (ConflictResolution.REPLACE_IF_DIFFERENT == ConflictResolution.REPLACE_IF_DIFFERENT) = true := rfl

@[simp] theorem skip_beq_always :
    (ConflictResolution.SKIP == ConflictResolution.ALWAYS_REPLACE) = false := rfl

@[simp] theorem skip_beq_rid :
    (ConflictResolution.SKIP == ConflictResolution.REPLACE_IF_DIFFERENT) = false := rfl

@[simp] theorem skip_beq_skip :
    (ConflictResolution.SKIP == ConflictResolution.SKIP) = true := rfl

@[simp] theorem always_beq_always :
    (ConflictResolution.ALWAYS_REPLACE == ConflictResolution.ALWAYS_REPLACE) = true := rfl

/-! ### C1 -/

/-- C1: Under REPLACE_IF_DIFFERENT, when the remote path exists as a file and
its remote digest equals the locally computed digest of the local file, no
upload call is performed (the upload log is unchanged) and the returned digest
is the unchanged remote digest. -/
theorem upload_or_replace_rid_equal_digest_no_upload
    (srv hexdigest : List Nat → String) (w w1 : World) (lf : LocalFile)
    (remote_dir : PStr) (d : String)
    (hcf : create_folders w remote_dir = (w1, Except.ok ()))
    (hmeta : Store.find w1.store (remotePathOf lf.path remote_dir)
      = some { type := EntryType.file, md5 := some d })
    (hd : hexdigest lf.content = d) :
    upload_or_replace srv hexdigest w lf remote_dir ConflictResolution.REPLACE_IF_DIFFERENT
      = (w1, Except.ok (remotePathOf lf.path remote_dir, some d)) ∧
    w1.uploadLog = w.uploadLog := by
  constructor
  · unfold upload_or_replace
    rw [hcf]
    simp [meta_or_none_eq, hmeta, isDirMeta, subscriptMd5,
      calculate_md5_pos hexdigest lf.content (by norm_num : (0 : Nat) < 2048), hd]
  · have h := create_folders_uploadLog w remote_dir
    rw [hcf] at h
    exact h

/-! ### C2, C5, C4: direct computations of upload_or_replace -/

theorem w_upload_ok_eq {srv : List Nat → String} {w : World} {lf : LocalFile} {p : PStr}
    (h : Store.parentOk w.store p = true)
    (hfind : Store.find w.store p = none ∨
      ∃ m, Store.find w.store p = some m ∧ (m.type == EntryType.dir) = false) :
    W.upload srv w lf p true =
      ({ store := Store.set w.store p { type := EntryType.file, md5 := some (srv lf.content) },
         uploadLog := w.uploadLog ++ [(lf.path, p)],
         mkdirLog := w.mkdirLog }, Except.ok ()) := by
  unfold W.upload Store.upload
  rcases hfind with hn | ⟨m, hm, hd⟩
  · rw [if_pos h, hn]
  · rw [if_pos h, hm]
    simp [hd]

/-- C2: When the remote path is absent after directory creation, every one of
the three policies performs exactly one upload call, and the returned digest
is the digest the remote store reports for the stored file afterwards. -/
theorem upload_or_replace_absent_uploads_once
    (srv hexdigest : List Nat → String) (w w1 : World) (lf : LocalFile)
    (remote_dir : PStr) (cr : ConflictResolution)
    (hcf : create_folders w remote_dir = (w1, Except.ok ()))
    (hmeta : Store.find w1.store (remotePathOf lf.path remote_dir) = none)
    (hpar : Store.parentOk w1.store (remotePathOf lf.path remote_dir) = true) :
    ∃ w2 : World,
      upload_or_replace srv hexdigest w lf remote_dir cr
        = (w2, Except.ok (remotePathOf lf.path remote_dir, some (srv lf.content))) ∧
      Store.find w2.store (remotePathOf lf.path remote_dir)
        = some { type := EntryType.file, md5 := some (srv lf.content) } ∧
      w2.uploadLog = w.uploadLog ++ [(lf.path, remotePathOf lf.path remote_dir)] := by
  have hw1 : w1.uploadLog = w.uploadLog := by
    have h := create_folders_uploadLog w remote_dir
    rw [hcf] at h
    exact h
  refine ⟨{ store := Store.set w1.store (remotePathOf lf.path remote_dir)
              { type := EntryType.file, md5 := some (srv lf.content) },
            uploadLog := w1.uploadLog ++ [(lf.path, remotePathOf lf.path remote_dir)],
            mkdirLog := w1.mkdirLog }, ?_, ?_, ?_⟩
  · unfold upload_or_replace
    rw [hcf]
    simp [meta_or_none_eq, hmeta, isDirMeta, w_upload_ok_eq hpar (Or.inl hmeta),
      find_set_self, subscriptMd5]
  · exact find_set_self ..
  · simp [hw1]

/-- C5: When the remote path already exists as a directory, the call fails
with the conflict error (the code's ValueError) under every policy, without
performing any upload call. -/
theorem upload_or_replace_dir_conflict
    (srv hexdigest : List Nat → String) (w w1 : World) (lf : LocalFile)
    (remote_dir : PStr) (x : Option String) (cr : ConflictResolution)
    (hcf : create_folders w remote_dir = (w1, Except.ok ()))
    (hmeta : Store.find w1.store (remotePathOf lf.path remote_dir)
      = some { type := EntryType.dir, md5 := x }) :
    upload_or_replace srv hexdigest w lf remote_dir cr
      = (w1, Except.error (Err.conflict (dirConflictMsg (remotePathOf lf.path remote_dir)))) ∧
    w1.uploadLog = w.uploadLog := by
  constructor
  · unfold upload_or_replace
    rw [hcf]
    simp [meta_or_none_eq, hmeta, isDirMeta]
  · have h := create_folders_uploadLog w remote_dir
    rw [hcf] at h
    exact h

/-- C4: Under SKIP, when the remote path exists as a file no upload call is
performed and the returned digest is the existing remote digest even when it
differs from the local one (no digest hypothesis); when the remote path is
absent, exactly one upload is performed. -/
theorem upload_or_replace_skip_policy :
    (∀ (srv hexdigest : List Nat → String) (w w1 : World) (lf : LocalFile)
      (remote_dir : PStr) (d : Option String),
      create_folders w remote_dir = (w1, Except.ok ()) →
      Store.find w1.store (remotePathOf lf.path remote_dir)
        = some { type := EntryType.file, md5 := d } →
      upload_or_replace srv hexdigest w lf remote_dir ConflictResolution.SKIP
        = (w1, Except.ok (remotePathOf lf.path remote_dir, d)) ∧
      w1.uploadLog = w.uploadLog) ∧
    (∀ (srv hexdigest : List Nat → String) (w w1 : World) (lf : LocalFile)
      (remote_dir : PStr),
      create_folders w remote_dir = (w1, Except.ok ()) →
      Store.find w1.store (remotePathOf lf.path remote_dir) = none →
      Store.parentOk w1.store (remotePathOf lf.path remote_dir) = true →
      ∃ w2 : World,
        upload_or_replace srv hexdigest w lf remote_dir ConflictResolution.SKIP
          = (w2, Except.ok (remotePathOf lf.path remote_dir, some (srv lf.content))) ∧
        w2.uploadLog = w.uploadLog ++ [(lf.path, remotePathOf lf.path remote_dir)]) := by
  constructor
  · intro srv hexdigest w w1 lf remote_dir d hcf hmeta
    constructor
    · unfold upload_or_replace
      rw [hcf]
      simp [meta_or_none_eq, hmeta, isDirMeta, subscriptMd5]
    · have h := create_folders_uploadLog w remote_dir
      rw [hcf] at h
      exact h
  · intro srv hexdigest w w1 lf remote_dir hcf hmeta hpar
    have hw1 : w1.uploadLog = w.uploadLog := by
      have h := create_folders_uploadLog w remote_dir
      rw [hcf] at h
      exact h
    refine ⟨{ store := Store.set w1.store (remotePathOf lf.path remote_dir)
                { type := EntryType.file, md5 := some (srv lf.content) },
              uploadLog := w1.uploadLog ++ [(lf.path, remotePathOf lf.path remote_dir)],
              mkdirLog := w1.mkdirLog }, ?_, ?_⟩
    · unfold upload_or_replace
      rw [hcf]
      simp [meta_or_none_eq, hmeta, isDirMeta, w_upload_ok_eq hpar (Or.inl hmeta),
        find_set_self, subscriptMd5]
    · simp [hw1]

/-! ### The upload-log shape of any call, C3 and C10 -/

theorem uploadLog_shape (srv hexdigest : List Nat → String)
    (w : World) (lf : LocalFile) (rd : PStr) (cr : ConflictResolution) :
    (upload_or_replace srv hexdigest w lf rd cr).1.uploadLog = w.uploadLog ∨
    (upload_or_replace srv hexdigest w lf rd cr).1.uploadLog
      = w.uploadLog ++ [(lf.path, remotePathOf lf.path rd)] := by
  unfold upload_or_replace
  rcases hcf : create_folders w rd with ⟨w1, r1⟩
  have hw1 : w1.uploadLog = w.uploadLog := by
    have h := create_folders_uploadLog w rd
    rw [hcf] at h
    exact h
  cases r1 with
  | error e => exact Or.inl hw1
  | ok u =>
    simp only [meta_or_none_eq]
    rcases hfind : Store.find w1.store (remotePathOf lf.path rd) with _ | m
    · rcases hup : W.upload srv w1 lf (remotePathOf lf.path rd) true with ⟨w2, r2⟩
      have hw2 : w2.uploadLog = w.uploadLog ++ [(lf.path, remotePathOf lf.path rd)] := by
        have h := upload_fst_uploadLog srv w1 lf (remotePathOf lf.path rd) true
        rw [hup] at h
        rw [h, hw1]
      cases r2 with
      | error e => exact Or.inr hw2
      | ok u2 =>
        simp only [meta_or_none_eq]
        rcases hf2 : Store.find w2.store (remotePathOf lf.path rd) with _ | m2
        · exact Or.inr hw2
        · exact Or.inr hw2
    · obtain ⟨t, md⟩ := m
      cases t with
      | dir => exact Or.inl hw1
      | file =>
        cases cr with
        | ALWAYS_REPLACE =>
          rcases hup : W.upload srv w1 lf (remotePathOf lf.path rd) true with ⟨w2, r2⟩
          have hw2 : w2.uploadLog = w.uploadLog ++ [(lf.path, remotePathOf lf.path rd)] := by
            have h := upload_fst_uploadLog srv w1 lf (remotePathOf lf.path rd) true
            rw [hup] at h
            rw [h, hw1]
          cases r2 with
          | error e => exact Or.inr hw2
          | ok u2 =>
            simp only [meta_or_none_eq]
            rcases hf2 : Store.find w2.store (remotePathOf lf.path rd) with _ | m2
            · exact Or.inr hw2
            · exact Or.inr hw2
        | SKIP => exact Or.inl hw1
        | REPLACE_IF_DIFFERENT =>
          by_cases hne : md = some (calculate_md5 hexdigest lf.content 2048)
          · simp [isDirMeta, subscriptMd5, hne, hw1]
          · simp only [isDirMeta, subscriptMd5, file_beq_dir, Bool.false_eq_true, if_false,
              Option.isNone_some, rid_beq_always, Bool.or_false, rid_beq_rid, if_true,
              ne_eq, hne, not_false_eq_true]
            rcases hup : W.upload srv w1 lf (remotePathOf lf.path rd) true with ⟨w2, r2⟩
            have hw2 : w2.uploadLog = w.uploadLog ++ [(lf.path, remotePathOf lf.path rd)] := by
              have h := upload_fst_uploadLog srv w1 lf (remotePathOf lf.path rd) true
              rw [hup] at h
              rw [h, hw1]
            cases r2 with
            | error e => exact Or.inr hw2
            | ok u2 =>
              dsimp only
              rcases hf2 : Store.find w2.store (remotePathOf lf.path rd) with _ | m2
              · exact Or.inr hw2
              · exact Or.inr hw2

/-- C3: Under ALWAYS_REPLACE, whether the remote path is absent or an existing
file and regardless of any digest comparison, exactly one upload call is
performed and the returned digest is the post-upload remote digest; and every
call of upload_or_replace, under any policy, performs at most one upload call. -/
theorem upload_or_replace_always_and_at_most_one :
    (∀ (srv hexdigest : List Nat → String) (w w1 : World) (lf : LocalFile) (remote_dir : PStr),
      create_folders w remote_dir = (w1, Except.ok ()) →
      Store.parentOk w1.store (remotePathOf lf.path remote_dir) = true →
      (Store.find w1.store (remotePathOf lf.path remote_dir) = none ∨
        ∃ d, Store.find w1.store (remotePathOf lf.path remote_dir)
          = some { type := EntryType.file, md5 := d }) →
      ∃ w2 : World,
        upload_or_replace srv hexdigest w lf remote_dir ConflictResolution.ALWAYS_REPLACE
          = (w2, Except.ok (remotePathOf lf.path remote_dir, some (srv lf.content))) ∧
        w2.uploadLog = w.uploadLog ++ [(lf.path, remotePathOf lf.path remote_dir)]) ∧
    (∀ (srv hexdigest : List Nat → String) (w : World) (lf : LocalFile)
      (remote_dir : PStr) (cr : ConflictResolution),
      (upload_or_replace srv hexdigest w lf remote_dir cr).1.uploadLog.length
        ≤ w.uploadLog.length + 1) := by
  constructor
  · intro srv hexdigest w w1 lf remote_dir hcf hpar hmeta
    have hw1 : w1.uploadLog = w.uploadLog := by
      have h := create_folders_uploadLog w remote_dir
      rw [hcf] at h
      exact h
    have hok : Store.find w1.store (remotePathOf lf.path remote_dir) = none ∨
        ∃ m, Store.find w1.store (remotePathOf lf.path remote_dir) = some m ∧
          (m.type == EntryType.dir) = false := by
      rcases hmeta with h | ⟨d, h⟩
      · exact Or.inl h
      · exact Or.inr ⟨_, h, rfl⟩
    refine ⟨{ store := Store.set w1.store (remotePathOf lf.path remote_dir)
                { type := EntryType.file, md5 := some (srv lf.content) },
              uploadLog := w1.uploadLog ++ [(lf.path, remotePathOf lf.path remote_dir)],
              mkdirLog := w1.mkdirLog }, ?_, by simp [hw1]⟩
    unfold upload_or_replace
    rw [hcf]
    rcases hmeta with h | ⟨d, h⟩
    · simp [meta_or_none_eq, h, isDirMeta, w_upload_ok_eq hpar hok, find_set_self, subscriptMd5]
    · simp [meta_or_none_eq, h, isDirMeta, w_upload_ok_eq hpar hok, find_set_self, subscriptMd5]
  · intro srv hexdigest w lf remote_dir cr
    rcases uploadLog_shape srv hexdigest w lf remote_dir cr with h | h
    · rw [h]
      omega
    · rw [h]
      simp

/-- C10: No execution path of upload_or_replace dereferences an absent
metadata record: the modelled store reports a just-uploaded path as present,
so the call never returns the TypeError of subscripting None. -/
theorem upload_or_replace_no_typeError (srv hexdigest : List Nat → String)
    (w : World) (lf : LocalFile) (rd : PStr) (cr : ConflictResolution) :
    (upload_or_replace srv hexdigest w lf rd cr).2 ≠ Except.error Err.typeError := by
  unfold upload_or_replace
  rcases hcf : create_folders w rd with ⟨w1, r1⟩
  cases r1 with
  | error e =>
    obtain ⟨msg, hmsg⟩ := create_aux_error_conflict (splitChar '/' rd) w [] hcf
    subst hmsg
    simp
  | ok u =>
    simp only [meta_or_none_eq]
    rcases hfind : Store.find w1.store (remotePathOf lf.path rd) with _ | m
    · rcases hup : W.upload srv w1 lf (remotePathOf lf.path rd) true with ⟨w2, r2⟩
      cases r2 with
      | error e =>
        obtain ⟨msg, hmsg⟩ := upload_error_conflict hup
        subst hmsg
        simp [isDirMeta]
      | ok u2 =>
        simp only [isDirMeta]
        try dsimp only
        rw [upload_ok_find hup]
        simp [subscriptMd5]
    · obtain ⟨t, md⟩ := m
      cases t with
      | dir => simp [isDirMeta]
      | file =>
        cases cr with
        | ALWAYS_REPLACE =>
          rcases hup : W.upload srv w1 lf (remotePathOf lf.path rd) true with ⟨w2, r2⟩
          cases r2 with
          | error e =>
            obtain ⟨msg, hmsg⟩ := upload_error_conflict hup
            subst hmsg
            simp [isDirMeta]
          | ok u2 =>
            simp only [isDirMeta]
            try dsimp only
            rw [upload_ok_find hup]
            simp [subscriptMd5]
        | SKIP => simp [isDirMeta, subscriptMd5]
        | REPLACE_IF_DIFFERENT =>
          by_cases hne : md = some (calculate_md5 hexdigest lf.content 2048)
          · simp [isDirMeta, subscriptMd5, hne]
          · simp only [isDirMeta, subscriptMd5, file_beq_dir, Bool.false_eq_true, if_false,
              Option.isNone_some, rid_beq_always, Bool.or_false, rid_beq_rid, if_true,
              ne_eq, hne, not_false_eq_true]
            rcases hup : W.upload srv w1 lf (remotePathOf lf.path rd) true with ⟨w2, r2⟩
            cases r2 with
            | error e =>
              obtain ⟨msg, hmsg⟩ := upload_error_conflict hup
              subst hmsg
              simp
            | ok u2 =>
              dsimp only
              rw [upload_ok_find hup]
              simp

/-! ### C7: the directory walk creates prefixes in order and is idempotent -/

theorem store_mkdir_ok {s : Store} {p : PStr} {s' : Store}
    (h : Store.mkdir s p = Except.ok s') :
    s' = Store.set s p { type := EntryType.dir, md5 := none } := by
  unfold Store.mkdir at h
  split at h
  · split at h
    · exact absurd h (by simp)
    · exact (Except.ok.injEq .. ▸ h).symm
  · exact absurd h (by simp)

theorem w_mkdir_ok_store {w : World} {p : PStr} {w' : World} {u : Unit}
    (h : W.mkdir w p = (w', Except.ok u)) :
    w'.store = Store.set w.store p { type := EntryType.dir, md5 := none } := by
  unfold W.mkdir at h
  cases hs : Store.mkdir w.store p with
  | ok s' =>
    rw [hs] at h
    injection h with h1 h2
    rw [← h1]
    exact store_mkdir_ok hs
  | error e =>
    rw [hs] at h
    simp at h

theorem w_mkdir_cases {w : World} {p : PStr} {w' : World} {r : Except Err Unit}
    (h : W.mkdir w p = (w', r)) :
    w'.store = w.store ∨
    w'.store = Store.set w.store p { type := EntryType.dir, md5 := none } := by
  unfold W.mkdir at h
  cases hs : Store.mkdir w.store p with
  | ok s' =>
    rw [hs] at h
    injection h with h1 h2
    rw [← h1]
    exact Or.inr (store_mkdir_ok hs)
  | error e =>
    rw [hs] at h
    injection h with h1 h2
    rw [← h1]
    exact Or.inl rfl

theorem find_set_mono {s : Store} {k : PStr} {mm : Resource} {q : PStr}
    (h : (Store.find s q).isSome = true) :
    (Store.find (Store.set s k mm) q).isSome = true := by
  unfold Store.find Store.set
  rw [findKey_cons]
  split
  · rfl
  · exact h

theorem w_mkdir_store_mono {w : World} {p q : PStr} {w' : World} {r : Except Err Unit}
    (h : W.mkdir w p = (w', r)) (hq : (Store.find w.store q).isSome = true) :
    (Store.find w'.store q).isSome = true := by
  rcases w_mkdir_cases h with h' | h'
  · rw [h']
    exact hq
  · rw [h']
    exact find_set_mono hq

theorem create_aux_store_mono : ∀ (segs : List PStr) (w : World) (c : PStr) (q : PStr),
    (Store.find w.store q).isSome = true →
    (Store.find (create_folders_aux w c segs).1.store q).isSome = true := by
  intro segs
  induction segs with
  | nil => intro w c q h; exact h
  | cons seg rest ih =>
    intro w c q h
    unfold create_folders_aux
    split
    · exact ih w _ q h
    · rcases hm : W.mkdir w (c ++ seg ++ ['/']) with ⟨w', r⟩
      cases r with
      | ok u => exact ih w' _ q (w_mkdir_store_mono hm h)
      | error e => exact w_mkdir_store_mono hm h

theorem create_aux_all_present : ∀ (segs : List PStr) (w : World) (c : PStr) {w' : World},
    create_folders_aux w c segs = (w', Except.ok ()) →
    ∀ pc ∈ cumulCollectors c segs, (Store.find w'.store pc).isSome = true := by
  intro segs
  induction segs with
  | nil => intro w c w' h pc hpc; simp [cumulCollectors] at hpc
  | cons seg rest ih =>
    intro w c w' h pc hpc
    unfold create_folders_aux at h
    rw [cumulCollectors] at hpc
    rcases List.mem_cons.mp hpc with rfl | hmem
    · split at h
      · rename_i hex
        have hex' : (Store.find w.store (c ++ seg ++ ['/'])).isSome = true := hex
        have hmono := create_aux_store_mono rest w (c ++ seg ++ ['/']) (c ++ seg ++ ['/']) hex'
        rw [h] at hmono
        exact hmono
      · rcases hm : W.mkdir w (c ++ seg ++ ['/']) with ⟨wm, r⟩
        rw [hm] at h
        cases r with
        | error e => simp at h
        | ok u =>
          have hwm : (Store.find wm.store (c ++ seg ++ ['/'])).isSome = true := by
            rw [w_mkdir_ok_store hm, find_set_self]
            rfl
          have h' : create_folders_aux wm (c ++ seg ++ ['/']) rest = (w', Except.ok ()) := h
          have hmono := create_aux_store_mono rest wm (c ++ seg ++ ['/']) (c ++ seg ++ ['/']) hwm
          rw [h'] at hmono
          exact hmono
    · split at h
      · exact ih w _ h pc hmem
      · rcases hm : W.mkdir w (c ++ seg ++ ['/']) with ⟨wm, r⟩
        rw [hm] at h
        cases r with
        | error e => simp at h
        | ok u => exact ih wm _ h pc hmem

theorem create_aux_all_present_noop : ∀ (segs : List PStr) (w : World) (c : PStr),
    (∀ pc ∈ cumulCollectors c segs, (Store.find w.store pc).isSome = true) →
    create_folders_aux w c segs = (w, Except.ok ()) := by
  intro segs
  induction segs with
  | nil => intro w c h; rfl
  | cons seg rest ih =>
    intro w c h
    unfold create_folders_aux
    have h1 : Store.existsP w.store (c ++ seg ++ ['/']) = true :=
      h _ (by rw [cumulCollectors]; exact List.mem_cons_self _ _)
    rw [if_pos h1]
    exact ih w _ (fun pc hpc => h pc (by rw [cumulCollectors]; exact List.mem_cons.mpr (Or.inr hpc)))

theorem create_aux_mkdirLog : ∀ (segs : List PStr) (w : World) (c : PStr) {w' : World},
    create_folders_aux w c segs = (w', Except.ok ()) →
    ∃ l, w'.mkdirLog = w.mkdirLog ++ l ∧
      List.Sublist l (cumulCollectors c segs) ∧
      ∀ pc ∈ l, Store.find w.store pc = none := by
  intro segs
  induction segs with
  | nil =>
    intro w c w' h
    injection h with h1 h2
    subst h1
    exact ⟨[], by simp, List.nil_sublist _, by simp⟩
  | cons seg rest ih =>
    intro w c w' h
    unfold create_folders_aux at h
    split at h
    · obtain ⟨l, hl, hs, ha⟩ := ih w _ h
      exact ⟨l, hl, by rw [cumulCollectors]; exact hs.cons _, ha⟩
    · rename_i hex
      rcases hm : W.mkdir w (c ++ seg ++ ['/']) with ⟨wm, r⟩
      rw [hm] at h
      cases r with
      | error e => simp at h
      | ok u =>
        obtain ⟨l, hl, hs, ha⟩ := ih wm _ h
        refine ⟨(c ++ seg ++ ['/']) :: l, ?_, ?_, ?_⟩
        · have hml : wm.mkdirLog = w.mkdirLog ++ [c ++ seg ++ ['/']] := by
            have h2 := mkdir_fst_mkdirLog w (c ++ seg ++ ['/'])
            rw [hm] at h2
            exact h2
          rw [hl, hml, List.append_assoc]
          rfl
        · rw [cumulCollectors]
          exact hs.cons₂ _
        · intro pc hpc
          rcases List.mem_cons.mp hpc with rfl | hmem
          · have hnot : ¬ (Store.find w.store (c ++ seg ++ ['/'])).isSome = true := hex
            exact Option.not_isSome_iff_eq_none.mp hnot
          · have hwm := ha pc hmem
            rw [w_mkdir_ok_store hm] at hwm
            unfold Store.set Store.find at hwm
            rw [findKey_cons] at hwm
            split at hwm
            · simp at hwm
            · exact hwm

/-- C7: create_folders creates, in root-to-leaf order, exactly cumulative
prefixes that do not already exist (the created list is an in-order sublist of
the cumulative collector list, each created prefix initially absent); a second
call in succession returns the same world, performing no mkdir calls; and the
call does not fail when all cumulative prefixes already exist. -/
theorem create_folders_order_and_idempotent (remote_dir : PStr) :
    (∀ (w w' : World), create_folders w remote_dir = (w', Except.ok ()) →
      ∃ l, w'.mkdirLog = w.mkdirLog ++ l ∧
        List.Sublist l (cumulCollectors [] (splitChar '/' remote_dir)) ∧
        ∀ pc ∈ l, Store.find w.store pc = none) ∧
    (∀ (w w' : World), create_folders w remote_dir = (w', Except.ok ()) →
      create_folders w' remote_dir = (w', Except.ok ())) ∧
    (∀ w : World,
      (∀ pc ∈ cumulCollectors [] (splitChar '/' remote_dir),
        (Store.find w.store pc).isSome = true) →
      create_folders w remote_dir = (w, Except.ok ())) := by
  refine ⟨?_, ?_, ?_⟩
  · intro w w' h
    exact create_aux_mkdirLog (splitChar '/' remote_dir) w [] h
  · intro w w' h
    exact create_aux_all_present_noop (splitChar '/' remote_dir) w' []
      (create_aux_all_present (splitChar '/' remote_dir) w [] h)
  · intro w h
    exact create_aux_all_present_noop (splitChar '/' remote_dir) w [] h

/-! ### C6: an ancestor prefix that is a file makes the call fail with a conflict -/

/-- Well-formedness of a store: every entry's key is normalized and its parent
is the root or an existing directory entry. -/
def Store.WF (s : Store) : Prop :=
  ∀ p m, Store.findKey s p = some m →
    normalizeP p = p ∧
      (parent p = [] ∨ ∃ m', Store.findKey s (parent p) = some m' ∧ m'.type = EntryType.dir)

theorem chain_ancestor_present {s : Store} (hwf : Store.WF s) :
    ∀ (segs : List PStr) (q P : PStr) (m : Resource),
      (∀ x ∈ segs, x ≠ [] ∧ ¬ '/' ∈ x) →
      P ∈ chainFrom q segs →
      Store.findKey s P = some m →
      q = [] ∨ (Store.findKey s q).isSome = true := by
  intro segs
  induction segs with
  | nil => intro q P m hg hP hf; simp [chainFrom] at hP
  | cons seg rest ih =>
    intro q P m hg hP hf
    have hseg := hg seg (List.mem_cons_self _ _)
    simp only [chainFrom] at hP
    rcases List.mem_cons.mp hP with rfl | hmem
    · obtain ⟨hn, hpar⟩ := hwf _ _ hf
      rw [parent_mkpc hseg.2] at hpar
      rcases hpar with hq | ⟨m', hm', hd⟩
      · exact Or.inl hq
      · exact Or.inr (by rw [hm']; rfl)
    · have hrec := ih (mkpc q seg) P m (fun x hx => hg x (List.mem_cons.mpr (Or.inr hx))) hmem hf
      rcases hrec with hq' | hq'
      · exact absurd hq' (mkpc_ne_nil hseg.1)
      · obtain ⟨m2, hm2⟩ := Option.isSome_iff_exists.mp hq'
        obtain ⟨hn2, hpar2⟩ := hwf _ _ hm2
        rw [parent_mkpc hseg.2] at hpar2
        rcases hpar2 with hq | ⟨m', hm', hd⟩
        · exact Or.inl hq
        · exact Or.inr (by rw [hm']; rfl)

theorem w_mkdir_parent_fail {w : World} {p : PStr}
    (h : Store.parentOk w.store p = false) :
    W.mkdir w p = ({ w with mkdirLog := w.mkdirLog ++ [p] },
      Except.error (Err.conflict ("mkdir: parent is missing or not a directory".toList))) := by
  unfold W.mkdir Store.mkdir
  simp [h]

theorem mkpc_of_ne_nil {q : PStr} (h : q ≠ []) (s : PStr) : mkpc q s = q ++ '/' :: s := by
  unfold mkpc
  rw [if_neg h]

theorem create_aux_file_prefix :
    ∀ (segs : List PStr) (w : World) (collector q P : PStr) (d : Option String),
      (∀ x ∈ segs, x ≠ [] ∧ ¬ '/' ∈ x) →
      Store.WF w.store →
      ((collector = [] ∧ q = []) ∨ (q ≠ [] ∧ collector = q ++ ['/'])) →
      P ∈ chainFrom q segs →
      Store.findKey w.store P = some { type := EntryType.file, md5 := d } →
      (∃ (w' : World) (msg : PStr),
        create_folders_aux w collector segs = (w', Except.error (Err.conflict msg))) ∨
      (create_folders_aux w collector segs = (w, Except.ok ()) ∧
        Store.findKey w.store (finalQ q segs) = some { type := EntryType.file, md5 := d }) := by
  intro segs
  induction segs with
  | nil => intro w collector q P d hg hwf hcol hP hf; simp [chainFrom] at hP
  | cons seg rest ih =>
    intro w collector q P d hg hwf hcol hP hf
    have hseg := hg seg (List.mem_cons_self _ _)
    have hpc : collector ++ seg ++ ['/'] = mkpc q seg ++ ['/'] := by
      rcases hcol with ⟨hc, hq⟩ | ⟨hq, hc⟩
      · subst hc; subst hq
        simp [mkpc]
      · subst hc
        simp [mkpc, hq]
    have hnorm : normalizeP (collector ++ seg ++ ['/']) = mkpc q seg := by
      rw [hpc, normalizeP_append_slash]
      exact normalizeP_mkpc hseg.1 hseg.2
    simp only [chainFrom] at hP
    rcases List.mem_cons.mp hP with rfl | hmem
    · have hex : Store.existsP w.store (collector ++ seg ++ ['/']) = true := by
        unfold Store.existsP Store.find
        rw [hnorm, hf]
        rfl
      cases rest with
      | nil =>
        right
        constructor
        · unfold create_folders_aux
          rw [if_pos hex]
          rfl
        · simp only [finalQ]
          exact hf
      | cons seg' rest' =>
        left
        have hseg' := hg seg' (by simp)
        have hnorm' : normalizeP ((collector ++ seg ++ ['/']) ++ seg' ++ ['/'])
            = mkpc (mkpc q seg) seg' := by
          have hstep : (mkpc q seg ++ ['/']) ++ seg' ++ ['/']
              = (mkpc q seg ++ '/' :: seg') ++ ['/'] := by simp
          rw [hpc, hstep, normalizeP_append_slash,
            normalizeP_append_seg hseg'.1 hseg'.2, mkpc_of_ne_nil (mkpc_ne_nil hseg.1)]
      -- the prefix after the file is absent in a well-formed store
        have habs : Store.findKey w.store (mkpc (mkpc q seg) seg') = none := by
          cases hfk : Store.findKey w.store (mkpc (mkpc q seg) seg') with
          | none => rfl
          | some m2 =>
            obtain ⟨hn2, hp2⟩ := hwf _ _ hfk
            rw [parent_mkpc hseg'.2] at hp2
            rcases hp2 with hq2 | ⟨m', hm', hd2⟩
            · exact absurd hq2 (mkpc_ne_nil hseg.1)
            · rw [hf] at hm'
              injection hm' with hm'
              rw [← hm'] at hd2
              simp at hd2
        have hpar : Store.parentOk w.store ((collector ++ seg ++ ['/']) ++ seg' ++ ['/']) = false := by
          unfold Store.parentOk Store.isDirAt
          rw [hnorm', parent_mkpc hseg'.2, hf]
          cases hmk : mkpc q seg with
          | nil => exact absurd hmk (mkpc_ne_nil hseg.1)
          | cons a r => simp
        have hex2 : Store.existsP w.store ((collector ++ seg ++ ['/']) ++ seg' ++ ['/']) = false := by
          unfold Store.existsP Store.find
          rw [hnorm', habs]
          rfl
        refine ⟨{ w with
            mkdirLog := w.mkdirLog ++ [(collector ++ seg ++ ['/']) ++ seg' ++ ['/']] },
          "mkdir: parent is missing or not a directory".toList, ?_⟩
        unfold create_folders_aux
        rw [if_pos hex]
        unfold create_folders_aux
        rw [if_neg (by rw [hex2]; simp), w_mkdir_parent_fail hpar]
    · have hq' := chain_ancestor_present hwf rest (mkpc q seg) P
        { type := EntryType.file, md5 := d }
        (fun x hx => hg x (by simp [hx])) hmem hf
      rcases hq' with hq' | hq'
      · exact absurd hq' (mkpc_ne_nil hseg.1)
      · have hex : Store.existsP w.store (collector ++ seg ++ ['/']) = true := by
          unfold Store.existsP Store.find
          rw [hnorm]
          exact hq'
        have hrec := ih w (collector ++ seg ++ ['/']) (mkpc q seg) P d
          (fun x hx => hg x (by simp [hx])) hwf (Or.inr ⟨mkpc_ne_nil hseg.1, hpc⟩) hmem hf
        rcases hrec with ⟨w', msg, haux⟩ | ⟨haux, hfin⟩
        · left
          refine ⟨w', msg, ?_⟩
          unfold create_folders_aux
          rw [if_pos hex]
          exact haux
        · right
          constructor
          · unfold create_folders_aux
            rw [if_pos hex]
            exact haux
          · simp only [finalQ]
            exact hfin

theorem mkpc_joinSlash : ∀ (segs : List PStr) (q : PStr),
    segs ≠ [] → (∀ x ∈ segs, x ≠ []) →
    finalQ q segs = mkpc q (joinSlash segs) := by
  intro segs
  induction segs with
  | nil => intro q h hg; exact absurd rfl h
  | cons seg rest ih =>
    intro q hne hg
    cases rest with
    | nil => simp only [finalQ, joinSlash]
    | cons s2 r2 =>
      rw [show finalQ q (seg :: s2 :: r2) = finalQ (mkpc q seg) (s2 :: r2) from rfl,
        ih (mkpc q seg) (by simp) (fun x hx => hg x (by simp [hx]))]
      show mkpc (mkpc q seg) (joinSlash (s2 :: r2)) = mkpc q (joinSlash (seg :: s2 :: r2))
      rw [show joinSlash (seg :: s2 :: r2) = seg ++ '/' :: joinSlash (s2 :: r2) from rfl]
      rw [mkpc_of_ne_nil (mkpc_ne_nil (hg seg (by simp)))]
      by_cases hq : q = []
      · subst hq
        rw [show mkpc [] seg = seg from rfl, show mkpc [] (seg ++ '/' :: joinSlash (s2 :: r2))
          = seg ++ '/' :: joinSlash (s2 :: r2) from rfl]
      · rw [mkpc_of_ne_nil hq, mkpc_of_ne_nil hq]
        simp

theorem finalQ_nil_eq (segs : List PStr) (hne : segs ≠ []) (hg : ∀ x ∈ segs, x ≠ []) :
    finalQ [] segs = joinSlash segs := by
  rw [mkpc_joinSlash segs [] hne hg]
  rfl

theorem joinSlash_ne_nil {segs : List PStr} (hne : segs ≠ []) (hg : ∀ x ∈ segs, x ≠ []) :
    joinSlash segs ≠ [] := by
  cases segs with
  | nil => exact absurd rfl hne
  | cons s r =>
    cases r with
    | nil => exact hg s (by simp)
    | cons s2 r2 =>
      rw [show joinSlash (s :: s2 :: r2) = s ++ '/' :: joinSlash (s2 :: r2) from rfl]
      simp

/-- C6: When some cumulative prefix of remoteDir exists in a well-formed
remote store as a file rather than a directory, upload_or_replace fails with a
ConflictError under every policy: a proper prefix makes the directory walk's
mkdir fail, and when remoteDir itself is the file the metadata lookup comes
back absent and the upload call fails on its non-directory parent. -/
theorem upload_or_replace_ancestor_file_conflict
    (srv hexdigest : List Nat → String) (w : World) (lf : LocalFile)
    (remote_dir P : PStr) (d : Option String) (cr : ConflictResolution)
    (hsegs : ∀ x ∈ splitChar '/' remote_dir, x ≠ [])
    (hwf : Store.WF w.store)
    (hchain : P ∈ chainFrom [] (splitChar '/' remote_dir))
    (hfile : Store.findKey w.store P = some { type := EntryType.file, md5 := d })
    (hfn : fileNameOf lf.path ≠ []) :
    ∃ (w' : World) (msg : PStr),
      upload_or_replace srv hexdigest w lf remote_dir cr
        = (w', Except.error (Err.conflict msg)) := by
  have hgood : ∀ x ∈ splitChar '/' remote_dir, x ≠ [] ∧ ¬ '/' ∈ x :=
    fun x hx => ⟨hsegs x hx, splitChar_no_sep '/' remote_dir x hx⟩
  rcases create_aux_file_prefix (splitChar '/' remote_dir) w [] [] P d hgood hwf
      (Or.inl ⟨rfl, rfl⟩) hchain hfile with ⟨w', msg, haux⟩ | ⟨haux, hfin⟩
  · refine ⟨w', msg, ?_⟩
    unfold upload_or_replace
    rw [show create_folders w remote_dir = (w', Except.error (Err.conflict msg)) from haux]
  · have hrd : Store.findKey w.store remote_dir
        = some { type := EntryType.file, md5 := d } := by
      rw [← joinSlash_splitChar remote_dir,
        ← finalQ_nil_eq _ (splitChar_ne_nil '/' remote_dir) hsegs]
      exact hfin
    have hrdne : remote_dir ≠ [] := by
      rw [← joinSlash_splitChar remote_dir]
      exact joinSlash_ne_nil (splitChar_ne_nil '/' remote_dir) hsegs
    have hfns : ¬ '/' ∈ fileNameOf lf.path := fileNameOf_no_sep lf.path
    have hnormrp : normalizeP (remotePathOf lf.path remote_dir)
        = remotePathOf lf.path remote_dir := normalizeP_append_seg hfn hfns
    have hparrp : parent (remotePathOf lf.path remote_dir) = remote_dir :=
      parent_append_seg hfns
    have hcur : Store.find w.store (remotePathOf lf.path remote_dir) = none := by
      unfold Store.find
      rw [hnormrp]
      cases hfk : Store.findKey w.store (remotePathOf lf.path remote_dir) with
      | none => rfl
      | some m2 =>
        obtain ⟨hn2, hp2⟩ := hwf _ _ hfk
        rw [hparrp] at hp2
        rcases hp2 with hq2 | ⟨m', hm', hd2⟩
        · exact absurd hq2 hrdne
        · rw [hrd] at hm'
          injection hm' with hm'
          rw [← hm'] at hd2
          simp at hd2
    have hpar : Store.parentOk w.store (remotePathOf lf.path remote_dir) = false := by
      unfold Store.parentOk Store.isDirAt
      rw [hnormrp, hparrp, hrd]
      cases hr : remote_dir with
      | nil => exact absurd hr hrdne
      | cons a r => simp
    refine ⟨{ w with uploadLog := w.uploadLog ++ [(lf.path, remotePathOf lf.path remote_dir)] },
      "upload: parent is missing or not a directory".toList, ?_⟩
    unfold upload_or_replace
    rw [show create_folders w remote_dir = (w, Except.ok ()) from haux]
    simp [meta_or_none_eq, hcur, isDirMeta, W.upload, Store.upload, hpar]

/-! ### Concrete witnesses -/

theorem upload_or_replace_rid_equal_digest_no_upload_witness :
    (upload_or_replace (fun _ => "S") (fun _ => "D")
        ⟨[(['a'], ⟨EntryType.dir, none⟩), (['a', '/', 'f'], ⟨EntryType.file, some "D"⟩)], [], []⟩
        ⟨['f'], [1]⟩ ['a'] ConflictResolution.REPLACE_IF_DIFFERENT).2
      = Except.ok (['a', '/', 'f'], some "D") := by
  have h := (upload_or_replace_rid_equal_digest_no_upload (fun _ => "S") (fun _ => "D")
    ⟨[(['a'], ⟨EntryType.dir, none⟩), (['a', '/', 'f'], ⟨EntryType.file, some "D"⟩)], [], []⟩
    ⟨[(['a'], ⟨EntryType.dir, none⟩), (['a', '/', 'f'], ⟨EntryType.file, some "D"⟩)], [], []⟩
    ⟨['f'], [1]⟩ ['a'] "D" rfl rfl rfl).1
  rw [h]
  rfl

theorem upload_or_replace_absent_uploads_once_witness :
    (upload_or_replace (fun _ => "S") (fun _ => "D")
        ⟨[(['a'], ⟨EntryType.dir, none⟩)], [], []⟩
        ⟨['f'], [1]⟩ ['a'] ConflictResolution.REPLACE_IF_DIFFERENT).2
      = Except.ok (['a', '/', 'f'], some "S") := by
  obtain ⟨w2, h1, h2, h3⟩ := upload_or_replace_absent_uploads_once (fun _ => "S") (fun _ => "D")
    ⟨[(['a'], ⟨EntryType.dir, none⟩)], [], []⟩ ⟨[(['a'], ⟨EntryType.dir, none⟩)], [], []⟩
    ⟨['f'], [1]⟩ ['a'] ConflictResolution.REPLACE_IF_DIFFERENT rfl rfl rfl
  rw [h1]
  rfl

theorem upload_or_replace_always_and_at_most_one_witness :
    (upload_or_replace (fun _ => "S") (fun _ => "D")
        ⟨[(['a'], ⟨EntryType.dir, none⟩), (['a', '/', 'f'], ⟨EntryType.file, some "X"⟩)], [], []⟩
        ⟨['f'], [1]⟩ ['a'] ConflictResolution.ALWAYS_REPLACE).2
      = Except.ok (['a', '/', 'f'], some "S") ∧
    (upload_or_replace (fun _ => "S") (fun _ => "D")
        ⟨[(['a'], ⟨EntryType.dir, none⟩), (['a', '/', 'f'], ⟨EntryType.file, some "X"⟩)], [], []⟩
        ⟨['f'], [1]⟩ ['a'] ConflictResolution.ALWAYS_REPLACE).1.uploadLog.length
      ≤ (⟨[(['a'], ⟨EntryType.dir, none⟩), (['a', '/', 'f'], ⟨EntryType.file, some "X"⟩)], [], []⟩
          : World).uploadLog.length + 1 := by
  constructor
  · obtain ⟨w2, h1, h2⟩ := upload_or_replace_always_and_at_most_one.1 (fun _ => "S") (fun _ => "D")
      ⟨[(['a'], ⟨EntryType.dir, none⟩), (['a', '/', 'f'], ⟨EntryType.file, some "X"⟩)], [], []⟩
      ⟨[(['a'], ⟨EntryType.dir, none⟩), (['a', '/', 'f'], ⟨EntryType.file, some "X"⟩)], [], []⟩
      ⟨['f'], [1]⟩ ['a'] rfl rfl (Or.inr ⟨some "X", rfl⟩)
    rw [h1]
    rfl
  · exact upload_or_replace_always_and_at_most_one.2 (fun _ => "S") (fun _ => "D")
      ⟨[(['a'], ⟨EntryType.dir, none⟩), (['a', '/', 'f'], ⟨EntryType.file, some "X"⟩)], [], []⟩
      ⟨['f'], [1]⟩ ['a'] ConflictResolution.ALWAYS_REPLACE

theorem upload_or_replace_skip_policy_witness :
    (upload_or_replace (fun _ => "S") (fun _ => "D")
        ⟨[(['a'], ⟨EntryType.dir, none⟩), (['a', '/', 'f'], ⟨EntryType.file, some "X"⟩)], [], []⟩
        ⟨['f'], [1]⟩ ['a'] ConflictResolution.SKIP).2
      = Except.ok (['a', '/', 'f'], some "X") ∧
    (upload_or_replace (fun _ => "S") (fun _ => "D")
        ⟨[(['a'], ⟨EntryType.dir, none⟩)], [], []⟩
        ⟨['f'], [1]⟩ ['a'] ConflictResolution.SKIP).2
      = Except.ok (['a', '/', 'f'], some "S") := by
  constructor
  · have h := (upload_or_replace_skip_policy.1 (fun _ => "S") (fun _ => "D")
      ⟨[(['a'], ⟨EntryType.dir, none⟩), (['a', '/', 'f'], ⟨EntryType.file, some "X"⟩)], [], []⟩
      ⟨[(['a'], ⟨EntryType.dir, none⟩), (['a', '/', 'f'], ⟨EntryType.file, some "X"⟩)], [], []⟩
      ⟨['f'], [1]⟩ ['a'] (some "X") rfl rfl).1
    rw [h]
    rfl
  · obtain ⟨w2, h1, h2⟩ := upload_or_replace_skip_policy.2 (fun _ => "S") (fun _ => "D")
      ⟨[(['a'], ⟨EntryType.dir, none⟩)], [], []⟩ ⟨[(['a'], ⟨EntryType.dir, none⟩)], [], []⟩
      ⟨['f'], [1]⟩ ['a'] rfl rfl rfl
    rw [h1]
    rfl

theorem upload_or_replace_dir_conflict_witness :
    (upload_or_replace (fun _ => "S") (fun _ => "D")
        ⟨[(['a'], ⟨EntryType.dir, none⟩), (['a', '/', 'f'], ⟨EntryType.dir, none⟩)], [], []⟩
        ⟨['f'], [1]⟩ ['a'] ConflictResolution.SKIP).2
      = Except.error (Err.conflict (dirConflictMsg ['a', '/', 'f'])) := by
  have h := (upload_or_replace_dir_conflict (fun _ => "S") (fun _ => "D")
    ⟨[(['a'], ⟨EntryType.dir, none⟩), (['a', '/', 'f'], ⟨EntryType.dir, none⟩)], [], []⟩
    ⟨[(['a'], ⟨EntryType.dir, none⟩), (['a', '/', 'f'], ⟨EntryType.dir, none⟩)], [], []⟩
    ⟨['f'], [1]⟩ ['a'] none ConflictResolution.SKIP rfl rfl).1
  rw [h]
  rfl

theorem upload_or_replace_ancestor_file_conflict_witness :
    ∃ (w' : World) (msg : PStr),
      upload_or_replace (fun _ => "S") (fun _ => "D")
          ⟨[(['a'], ⟨EntryType.file, some "X"⟩)], [], []⟩
          ⟨['f'], [1]⟩ ['a'] ConflictResolution.REPLACE_IF_DIFFERENT
        = (w', Except.error (Err.conflict msg)) := by
  refine upload_or_replace_ancestor_file_conflict (fun _ => "S") (fun _ => "D")
    ⟨[(['a'], ⟨EntryType.file, some "X"⟩)], [], []⟩ ⟨['f'], [1]⟩ ['a'] ['a'] (some "X")
    ConflictResolution.REPLACE_IF_DIFFERENT (by decide) ?_ (by decide) rfl (by decide)
  intro p m h
  unfold Store.findKey at h
  split at h
  · rename_i hp
    subst hp
    exact ⟨by decide, Or.inl (by decide)⟩
  · exact absurd h (by unfold Store.findKey; simp)

theorem create_folders_order_and_idempotent_witness :
    create_folders
        ⟨[(['a', '/', 'b'], ⟨EntryType.dir, none⟩), (['a'], ⟨EntryType.dir, none⟩)], [],
          [['a', '/'], ['a', '/', 'b', '/']]⟩ ['a', '/', 'b']
      = (⟨[(['a', '/', 'b'], ⟨EntryType.dir, none⟩), (['a'], ⟨EntryType.dir, none⟩)], [],
          [['a', '/'], ['a', '/', 'b', '/']]⟩, Except.ok ()) ∧
    create_folders ⟨[(['a'], ⟨EntryType.dir, none⟩), (['a', '/', 'b'], ⟨EntryType.dir, none⟩)], [], []⟩
        ['a', '/', 'b']
      = (⟨[(['a'], ⟨EntryType.dir, none⟩), (['a', '/', 'b'], ⟨EntryType.dir, none⟩)], [], []⟩,
        Except.ok ()) := by
  constructor
  · exact (create_folders_order_and_idempotent ['a', '/', 'b']).2.1 ⟨[], [], []⟩
      ⟨[(['a', '/', 'b'], ⟨EntryType.dir, none⟩), (['a'], ⟨EntryType.dir, none⟩)], [],
        [['a', '/'], ['a', '/', 'b', '/']]⟩ rfl
  · exact (create_folders_order_and_idempotent ['a', '/', 'b']).2.2
      ⟨[(['a'], ⟨EntryType.dir, none⟩), (['a', '/', 'b'], ⟨EntryType.dir, none⟩)], [], []⟩
      (by decide)
